import Mathlib

/-!
Verification of the appstream backend orchestration core.

Shallow embedding of the Python source under backend/services/: the
custom-argument parser (workflows/steps/custom_args_step.py), the workflow
executor loops (workflows/workflow_executor.py), the build pipeline
preconditions (build_service.py), the run-session guards
(flutter_run_service.py), the build-history retention
(build_history_service.py) and the Android platform handler
(platforms/android.py).

External effects (subprocess spawning, file I/O, WebSocket emission) are
modelled as explicit event lists or abstract continuation parameters; the
control flow that decides each claim is translated literally from the source.
-/

namespace AppStream

/-! ### Character sets

The special characters, written via code points so the development does not
depend on quote literals. Python str.strip and str.split use the full
whitespace set; shlex uses only space, tab, carriage return and newline.
Only the ASCII whitespace characters are modelled.
-/

def squote : Char := Char.ofNat 39

def dquote : Char := Char.ofNat 34

def bslash : Char := Char.ofNat 92

def nlChar : Char := Char.ofNat 10

def crChar : Char := Char.ofNat 13

def tabChar : Char := Char.ofNat 9

def vtChar : Char := Char.ofNat 11

def ffChar : Char := Char.ofNat 12

/-- Whitespace for the shlex lexer: its default whitespace attribute. -/
def isShlexWs (c : Char) : Bool :=
  c == ' ' || c == tabChar || c == crChar || c == nlChar

/-- Whitespace for Python str.strip and str.split (ASCII part). -/
def isPyWs (c : Char) : Bool :=
  isShlexWs c || c == vtChar || c == ffChar

/-- Python str.strip with no argument: remove leading and trailing whitespace. -/
def pyStrip (s : String) : String :=
  String.mk (((s.data.dropWhile isPyWs).reverse.dropWhile isPyWs).reverse)

/-- Python str.replace for single characters: replace every a with b. -/
def pyReplaceChar (s : String) (a b : Char) : String :=
  String.mk (s.data.map fun c => if c = a then b else c)

/-- Helper for Python str.split with no argument: split on whitespace runs,
dropping empty pieces. The current fragment is accumulated reversed. -/
def wsSplitAux : List Char → List Char → List (List Char)
  | [], [] => []
  | [], cur => [cur.reverse]
  | c :: rest, cur =>
      if isPyWs c then
        (if cur = [] then wsSplitAux rest [] else cur.reverse :: wsSplitAux rest [])
      else wsSplitAux rest (c :: cur)

/-- Python str.split with no argument. -/
def pySplitWs (s : String) : List String :=
  (wsSplitAux s.data []).map String.mk

/-! ### shlex.split

State machine of Python shlex.read_token in posix mode with
whitespace_split=True and commenters disabled, which is exactly what
shlex.split uses.  States: between tokens (ws), inside an unquoted word
(word), inside a quote (inQuote q), and after an escape character met in a
word (escWord) or inside a double quote (escDquote).  The current token is
accumulated reversed together with the quoted flag; unbalanced quotes and a
trailing escape raise ValueError, modelled as Except.error.
-/

inductive SState where
  | ws : SState
  | word : SState
  | inQuote : Char → SState
  | escWord : SState
  | escDquote : SState
deriving DecidableEq

def shlexRun : List Char → SState → List Char → Bool → Except String (List String)
  | [], SState.inQuote _, _, _ => Except.error "No closing quotation"
  | [], SState.escWord, _, _ => Except.error "No escaped character"
  | [], SState.escDquote, _, _ => Except.error "No escaped character"
  | [], _, tok, quoted =>
      if tok ≠ [] || quoted then Except.ok [String.mk tok.reverse] else Except.ok []
  | c :: rest, SState.ws, tok, quoted =>
      if isShlexWs c then
        (if tok ≠ [] || quoted then
          match shlexRun rest SState.ws [] false with
          | Except.ok ts => Except.ok (String.mk tok.reverse :: ts)
          | Except.error e => Except.error e
        else shlexRun rest SState.ws tok quoted)
      else if c = bslash then shlexRun rest SState.escWord tok quoted
      else if c = squote ∨ c = dquote then shlexRun rest (SState.inQuote c) tok true
      else shlexRun rest SState.word (c :: tok) quoted
  | c :: rest, SState.word, tok, quoted =>
      if isShlexWs c then
        (if tok ≠ [] || quoted then
          match shlexRun rest SState.ws [] false with
          | Except.ok ts => Except.ok (String.mk tok.reverse :: ts)
          | Except.error e => Except.error e
        else shlexRun rest SState.ws tok quoted)
      else if c = squote ∨ c = dquote then shlexRun rest (SState.inQuote c) tok true
      else if c = bslash then shlexRun rest SState.escWord tok quoted
      else shlexRun rest SState.word (c :: tok) quoted
  | c :: rest, SState.inQuote q, tok, quoted =>
      if c = q then shlexRun rest SState.word tok quoted
      else if q = dquote ∧ c = bslash then shlexRun rest SState.escDquote tok quoted
      else shlexRun rest (SState.inQuote q) (c :: tok) quoted
  | c :: rest, SState.escWord, tok, quoted =>
      shlexRun rest SState.word (c :: tok) quoted
  | c :: rest, SState.escDquote, tok, quoted =>
      if c ≠ bslash ∧ c ≠ dquote then
        shlexRun rest (SState.inQuote dquote) (c :: bslash :: tok) quoted
      else shlexRun rest (SState.inQuote dquote) (c :: tok) quoted

/-- shlex.split in posix mode, as used by CustomArgsStep.parse_arguments. -/
def shlexSplit (s : String) : Except String (List String) :=
  shlexRun s.data SState.ws [] false

/-- True exactly on the success constructor of Except. -/
def exceptIsOk {ε α : Type} : Except ε α → Bool
  | Except.ok _ => true
  | Except.error _ => false

/-! ### CustomArgsStep -/

namespace CustomArgsStep

/-- Newline normalisation step of parse_arguments: replace newline and
carriage return by spaces. -/
def normalizeArgs (s : String) : String :=
  pyReplaceChar (pyReplaceChar s nlChar ' ') crChar ' '

/-- Fallback branch of parse_arguments taken when shlex raises ValueError:
split the normalised input on whitespace, strip each piece and drop empties. -/
def fallbackSplit (normalized : String) : List String :=
  ((pySplitWs normalized).map pyStrip).filter (fun a => a ≠ "")

/-- CustomArgsStep.parse_arguments: empty or whitespace-only input yields [];
otherwise newlines are normalised to spaces and shlex.split is attempted,
falling back to plain whitespace splitting when shlex raises. -/
def parse_arguments (arguments : String) : List String :=
  if arguments = "" ∨ pyStrip arguments = "" then []
  else
    let normalized := normalizeArgs arguments
    match shlexSplit normalized with
    | Except.ok args => args
    | Except.error _ => fallbackSplit normalized

/-- CustomArgsStep.extract_arguments_from_config: read the arguments key of a
step configuration (missing or falsy value becomes the empty string) and parse
it.  The configuration is modelled by the one key the step reads. -/
def extract_arguments_from_config (arguments : Option String) : List String :=
  match arguments with
  | none => parse_arguments ""
  | some s => parse_arguments (if s = "" then "" else s)

end CustomArgsStep

/-! ### Step contract and workflow executor

StepResult mirrors the dataclass in workflows/steps/base.py.  A step instance
is modelled by the two operations the executor calls on it: validate and
execute; execute either returns a StepResult or raises.  The registry is an
abstract lookup from the step type string and configuration to an optional
instance, mirroring StepRegistry.create_step returning None for unknown
types.  The execution context is an abstract type parameter: the executor
only threads it through.
-/

/-- Result of a workflow step execution (workflows/steps/base.py).  The output
mapping is modelled as an association list from keys to argument lists, which
covers every output the pipelines read. -/
structure StepResult where
  success : Bool
  message : String
  output : Option (List (String × List String)) := none
  error : Option String := none
deriving DecidableEq, Inhabited

/-- One entry of the step list as consumed by the executor: the id, type and
name keys may be absent, and the configuration is modelled by the one key the
claims read (the arguments blob of the custom_args step). -/
structure StepCfg where
  id : Option String := none
  type : Option String := none
  name : Option String := none
  arguments : Option String := none
deriving DecidableEq, Inhabited

/-- Outcome of calling execute on a step instance: a returned StepResult or a
raised fault. -/
inductive ExecOutcome where
  | raises : String → ExecOutcome
  | returns : StepResult → ExecOutcome

/-- A constructed step instance: validate() and execute(context). -/
structure StepInst (Ctx : Type) where
  validate : Bool × Option String
  execute : Ctx → ExecOutcome

/-- StepRegistry.create_step: returns none for unknown step types. -/
def Registry (Ctx : Type) : Type :=
  Option String → Option String → Option (StepInst Ctx)

/-- Python repr of an optional string inside an f-string message. -/
def pyShowOpt : Option String → String
  | none => "None"
  | some s => s

namespace WorkflowExecutor

/-- The step id: the id key or the default step_index form. -/
def stepIdOf (cfg : StepCfg) (index : Nat) : String :=
  cfg.id.getD ("step_" ++ toString index)

/-- The StepResult one loop iteration of WorkflowExecutor produces for one
step, following the branch order of the source: unknown type, failed
validation, raised fault, returned result.  Every branch of the source
appends exactly this result and emits its terminal status. -/
def runStep {Ctx : Type} (reg : Registry Ctx) (ctx : Ctx) (cfg : StepCfg) : StepResult :=
  match reg cfg.type cfg.arguments with
  | none =>
      let msg := "Unknown step type: " ++ pyShowOpt cfg.type
      { success := false, message := msg, error := some msg }
  | some inst =>
      match inst.validate with
      | (false, verr) =>
          { success := false
            message := "Step validation failed: " ++ pyShowOpt verr
            error := verr }
      | (true, _) =>
          match inst.execute ctx with
          | ExecOutcome.raises e =>
              { success := false
                message := "Step execution error: " ++ e
                error := some e }
          | ExecOutcome.returns r => r

/-- Whether one step runs successfully under the registry and context. -/
def stepSuccess {Ctx : Type} (reg : Registry Ctx) (ctx : Ctx) (cfg : StepCfg) : Bool :=
  (runStep reg ctx cfg).success

/-- Per-step status events emitted via the WebSocket by execute. -/
inductive StepEvent where
  | running : Nat → String → StepEvent
  | finished : Nat → String → String → StepEvent
  | skipped : Nat → String → StepEvent
deriving DecidableEq

/-- The step loop of WorkflowExecutor.execute (lines 211-283): emit running,
instantiate, validate, execute inside a failure boundary, append the result,
emit the terminal status, and on an unsuccessful result with stop_on_error
set the failed flag and break.  Returns the failed flag, the result list and
the emitted events. -/
def executeLoop {Ctx : Type} (reg : Registry Ctx) (ctx : Ctx) (stopOnError : Bool) :
    List StepCfg → Nat → Bool × List (String × StepResult) × List StepEvent
  | [], _ => (false, [], [])
  | cfg :: rest, index =>
      let sid := stepIdOf cfg index
      let r := runStep reg ctx cfg
      let evs := [StepEvent.running index sid,
                  StepEvent.finished index sid (if r.success then "success" else "error")]
      if !r.success && stopOnError then
        (true, [(sid, r)], evs)
      else
        let out := executeLoop reg ctx stopOnError rest (index + 1)
        (out.1, (sid, r) :: out.2.1, evs ++ out.2.2)

/-- WorkflowExecutor.execute after workflow resolution: run the step loop from
index 0, and when it stopped early mark every remaining step skipped (lines
284-289); the final status is error exactly when the failed flag was set.
The cooperative stop flag is false throughout a run with no concurrent stop
call, so the stopped branches do not fire. -/
def execute {Ctx : Type} (reg : Registry Ctx) (ctx : Ctx)
    (steps : List StepCfg) (stopOnError : Bool) :
    String × List (String × StepResult) × List StepEvent :=
  let out := executeLoop reg ctx stopOnError steps 0
  let skipEvs :=
    if out.1 then
      (List.range' out.2.1.length (steps.length - out.2.1.length)).map
        (fun j => StepEvent.skipped j (stepIdOf (steps.getD j default) j))
    else []
  let status := if out.1 then "error" else "success"
  (status, out.2.1, out.2.2 ++ skipEvs)

/-- The loop of WorkflowExecutor.execute_steps (lines 383-470): same per-step
semantics as execute but without status events; all_success is cleared on
every unsuccessful step and the loop breaks only when stop_on_error is set. -/
def executeStepsLoop {Ctx : Type} (reg : Registry Ctx) (ctx : Ctx) (stopOnError : Bool) :
    List StepCfg → Nat → Bool × List (String × StepResult)
  | [], _ => (true, [])
  | cfg :: rest, index =>
      let sid := stepIdOf cfg index
      let r := runStep reg ctx cfg
      if !r.success && stopOnError then
        (false, [(sid, r)])
      else
        let out := executeStepsLoop reg ctx stopOnError rest (index + 1)
        (out.1 && r.success, (sid, r) :: out.2)

/-- WorkflowExecutor.execute_steps: the reduced interface used by the build
and run pipelines, returning (success, results). -/
def execute_steps {Ctx : Type} (reg : Registry Ctx) (ctx : Ctx)
    (steps : List StepCfg) (stopOnError : Bool) : Bool × List (String × StepResult) :=
  if steps = [] then (true, [])
  else executeStepsLoop reg ctx stopOnError steps 0

end WorkflowExecutor

/-! ### Custom-argument harvesting by the pipelines -/

/-- The shared loop body of BuildService._extract_custom_args and
FlutterRunService._extract_custom_args: scan the original step
configurations in list order and concatenate the parsed tokens of every step
whose type is custom_args. -/
def extractCustomArgsLoop : List StepCfg → List String
  | [] => []
  | step :: rest =>
      if step.type = some "custom_args" then
        CustomArgsStep.extract_arguments_from_config step.arguments
          ++ extractCustomArgsLoop rest
      else extractCustomArgsLoop rest

namespace BuildService

/-- BuildService._extract_custom_args: the executor result list is a
parameter of the source function but is never read. -/
def extract_custom_args (steps : List StepCfg)
    (results : List (String × StepResult)) : List String :=
  extractCustomArgsLoop steps

end BuildService

namespace FlutterRunService

/-- FlutterRunService._extract_custom_args: identical to the BuildService
copy, including the ignored results parameter. -/
def extract_custom_args (steps : List StepCfg)
    (results : List (String × StepResult)) : List String :=
  extractCustomArgsLoop steps

end FlutterRunService

/-! ### Build pipeline preconditions

BuildService.build (build_service.py lines 86-106) checks its preconditions
before allocating the build id and entering the try block: the app record
must exist, name a project id, that project must resolve, and the requested
platform must appear in the supported platforms list (default [android]).
Everything after the checks, from build id allocation through subprocess
supervision, is abstracted into a continuation that reports its effects as a
list of events; the claims only need that no event occurs before the checks
pass.
-/

/-- The slice of an app record that BuildService.build reads before spawning
anything. -/
structure AppConfig where
  project_id : Option String := none
  platforms : Option (List String) := none
deriving DecidableEq, Inhabited

/-- Observable side effects of a build: each spawned toolchain subprocess is
one event. -/
inductive BuildEvent where
  | spawn : List String → BuildEvent
deriving DecidableEq

namespace BuildService

/-- BuildService.build up to its precondition checks, literally in source
order; app_config is the app-store lookup result, getProject the project
store lookup, and body the remainder of the function (build id allocation,
pre-steps, handler setup, toolchain subprocesses, history append).  A falsy
project_id (absent or empty) is rejected like in the source. -/
def build (app_config : Option AppConfig) (getProject : String → Option String)
    (platform : String)
    (body : String → Except String Unit × List BuildEvent) :
    Except String Unit × List BuildEvent :=
  match app_config with
  | none => (Except.error "App not found", [])
  | some cfg =>
      let project_id := cfg.project_id.getD ""
      if project_id = "" then
        (Except.error "App is not associated with a project", [])
      else
        match getProject project_id with
        | none => (Except.error ("Project not found: " ++ project_id), [])
        | some project_root =>
            let supported := cfg.platforms.getD ["android"]
            if platform ∉ supported then
              (Except.error
                ("Platform " ++ platform ++ " is not supported by this app"), [])
            else body project_root

end BuildService

/-! ### Run session guards -/

/-- The mutable session state of FlutterRunService.  The process handle is
modelled by its presence; logs carry only their messages. -/
structure RunState where
  is_running : Bool := false
  device : Option String := none
  project_id : Option String := none
  logs : List String := []
  process : Option Unit := none
deriving DecidableEq, Inhabited

namespace FlutterRunService

/-- FlutterRunService.start up to the point the subprocess is spawned (lines
190-210): the busy guard, the project id guard and the project lookup all
raise with the state untouched; only then is the session state mutated and
the remainder run (modelled by the continuation body, which reports spawn
events).  Returns the outcome, the resulting state and the events. -/
def start (st : RunState) (device_id project_id : String)
    (getProject : String → Option String)
    (body : RunState → String → Except String Unit × RunState × List BuildEvent) :
    Except String Unit × RunState × List BuildEvent :=
  if st.is_running then
    (Except.error "Flutter is already running", st, [])
  else if project_id = "" then
    (Except.error "Project ID is required", st, [])
  else
    match getProject project_id with
    | none => (Except.error ("Project not found: " ++ project_id), st, [])
    | some project_root =>
        body { st with device := some device_id, project_id := some project_id,
                       logs := [], is_running := true } project_root

/-- FlutterRunService.stop (lines 420-423 and on): with no running session or
no process handle it returns the stopped status immediately, touching
nothing; otherwise the quit-write, wait, post-steps and state reset are the
continuation body. -/
def stop (st : RunState)
    (body : RunState → String × RunState × List BuildEvent) :
    String × RunState × List BuildEvent :=
  if !st.is_running || st.process.isNone then
    ("stopped", st, [])
  else body st

end FlutterRunService

/-! ### Build history retention -/

/-- One build history record as assembled by BuildHistoryService.add_record. -/
structure BuildRecord where
  build_id : Option String := none
  timestamp : String := ""
  platform : Option String := none
  build_type : Option String := none
  output_type : Option String := none
  status : Option String := none
  filename : Option String := none
  error_message : Option String := none
  duration : Option Nat := none
deriving DecidableEq, Inhabited

namespace BuildHistoryService

/-- BuildHistoryService.add_record on the loaded history list (lines 78-84):
insert the new record at index 0 and keep only the first 50 records; loading
and saving the JSON file are the external persistence collaborator. -/
def add_record (history : List BuildRecord) (record : BuildRecord) :
    List BuildRecord :=
  List.take 50 (record :: history)

end BuildHistoryService

/-! ### Android platform handler -/

namespace AndroidHandler

/-- AndroidHandler.get_build_command (platforms/android.py lines 88-95). -/
def get_build_command (build_type output_type : String) : List String :=
  let mode_flag := if build_type = "release" then "--release" else "--debug"
  if output_type = "appbundle" then
    ["flutter", "build", "appbundle", mode_flag]
  else
    ["flutter", "build", "apk", mode_flag]

end AndroidHandler

/-- A character with no special meaning anywhere in the lexer: not shlex
whitespace, not a quote, not the escape character.  Used to quantify the
quoted-token property over arbitrary token bodies. -/
def plainChar (c : Char) : Bool :=
  !isShlexWs c && !(c == squote) && !(c == dquote) && !(c == bslash)

/-- A small concrete registry for the executor witnesses: a good step type
whose execution succeeds and a bad one whose execution fails. -/
def witnessRegistry : Registry Unit := fun t _ =>
  if t = some "good" then
    some ⟨(true, none), fun _ => ExecOutcome.returns ⟨true, "ok", none, none⟩⟩
  else if t = some "bad" then
    some ⟨(true, none), fun _ => ExecOutcome.returns ⟨false, "boom", none, some "boom"⟩⟩
  else none

/-- A concrete step list whose second step fails. -/
def witnessSteps : List StepCfg :=
  [⟨some "s0", some "good", none, none⟩,
   ⟨some "s1", some "bad", none, none⟩,
   ⟨some "s2", some "good", none, none⟩]

/-!
## Theorems
-/

/-- C2 counterexample: the Android handler maps the profile build type to the
debug mode flag, not to a profile flag, so the claimed mode-flag
correspondence fails at build_type profile. -/
theorem android_profile_flag_counterexample :
    AndroidHandler.get_build_command "profile" "apk" =
        ["flutter", "build", "apk", "--debug"] ∧
    AndroidHandler.get_build_command "profile" "apk" ≠
        ["flutter", "build", "apk", "--profile"] := by
  exact ⟨rfl, by decide⟩

/-- C2 (amended): for every build type and output type the Android handler
returns a flutter build command whose sub-command is appbundle exactly when
the output type is appbundle and apk otherwise, and whose mode flag is
release for the release build type and debug for every other build type
(including profile); in particular the debug appbundle command is as
claimed. -/
theorem android_build_command_spec :
    (∀ build_type output_type : String,
      AndroidHandler.get_build_command build_type output_type =
        ["flutter", "build",
         if output_type = "appbundle" then "appbundle" else "apk",
         if build_type = "release" then "--release" else "--debug"]) ∧
    AndroidHandler.get_build_command "debug" "appbundle" =
      ["flutter", "build", "appbundle", "--debug"] := by
  refine ⟨fun bt ot => ?_, rfl⟩
  by_cases h : ot = "appbundle" <;> simp [AndroidHandler.get_build_command, h]

/-- C6: add_record inserts the new record at the front, keeps at most 50
records, leaves a history of at most 49 records intact behind the new head,
and on a full history of 50 records evicts exactly the last (oldest)
entry. -/
theorem add_record_retention (h : List BuildRecord) (r : BuildRecord) :
    (BuildHistoryService.add_record h r).head? = some r ∧
    (BuildHistoryService.add_record h r).length ≤ 50 ∧
    (h.length ≤ 49 → BuildHistoryService.add_record h r = r :: h) ∧
    (h.length = 50 → BuildHistoryService.add_record h r = r :: h.dropLast) := by
  refine ⟨?_, ?_, ?_, ?_⟩
  · simp [BuildHistoryService.add_record]
  · simp [BuildHistoryService.add_record]
  · intro hl
    simp only [BuildHistoryService.add_record, List.take_succ_cons]
    rw [List.take_of_length_le hl]
  · intro hl
    simp only [BuildHistoryService.add_record, List.take_succ_cons]
    rw [List.dropLast_eq_take, hl]

/-- C6 witness: on an empty history the record is simply prepended, and on a
history of exactly 50 records the oldest entry is evicted. -/
theorem add_record_retention_witness :
    BuildHistoryService.add_record [] default = [default] ∧
    BuildHistoryService.add_record (List.replicate 50 default) default =
      default :: (List.replicate 50 default).dropLast :=
  ⟨(add_record_retention [] default).2.2.1 (by simp),
   (add_record_retention (List.replicate 50 default) default).2.2.2 (by simp)⟩

/-- C8: while a session is running, start raises the already-running error,
leaves the session state unchanged and spawns nothing. -/
theorem run_start_busy_guard (st : RunState) (device_id project_id : String)
    (getProject : String → Option String)
    (body : RunState → String → Except String Unit × RunState × List BuildEvent)
    (hrun : st.is_running = true) :
    FlutterRunService.start st device_id project_id getProject body =
      (Except.error "Flutter is already running", st, []) := by
  simp [FlutterRunService.start, hrun]

/-- C8 witness: a concrete busy session rejects a start request even when the
continuation would have spawned a process. -/
theorem run_start_busy_guard_witness :
    FlutterRunService.start (⟨true, none, none, [], some ()⟩ : RunState) "emulator-5554" "p1"
        (fun _ => some "/projects/p1")
        (fun s _ => (Except.ok (), s, [BuildEvent.spawn ["flutter", "run"]])) =
      (Except.error "Flutter is already running",
        (⟨true, none, none, [], some ()⟩ : RunState), []) :=
  run_start_busy_guard _ "emulator-5554" "p1" _ _ rfl

/-- C9: stop on a session with no running flag or no process handle returns
the stopped status with the state unchanged, and a repeated stop returns the
same answer. -/
theorem run_stop_idempotent (st : RunState)
    (body : RunState → String × RunState × List BuildEvent)
    (h : st.is_running = false ∨ st.process = none) :
    FlutterRunService.stop st body = ("stopped", st, []) ∧
    FlutterRunService.stop (FlutterRunService.stop st body).2.1 body =
      ("stopped", st, []) := by
  have h1 : FlutterRunService.stop st body = ("stopped", st, []) := by
    rcases h with h | h <;> simp [FlutterRunService.stop, h]
  refine ⟨h1, ?_⟩
  rw [h1]
  exact h1

/-- C9 witness: a concrete idle session, with a continuation that would have
mutated the state, still answers stopped twice with nothing changed. -/
theorem run_stop_idempotent_witness :
    FlutterRunService.stop (⟨false, none, none, [], none⟩ : RunState)
        (fun _ => ("late", ⟨true, some "d", none, [], some ()⟩, [])) =
      ("stopped", (⟨false, none, none, [], none⟩ : RunState), []) :=
  (run_stop_idempotent _ _ (Or.inl rfl)).1

/-- C4: when the app record is missing, the app names no project, or the
requested platform is not among the supported platforms, build answers with
an error and the event list is empty, so no toolchain subprocess was
spawned. -/
theorem build_precondition_no_spawn (app_config : Option AppConfig)
    (getProject : String → Option String) (platform : String)
    (body : String → Except String Unit × List BuildEvent)
    (h : app_config = none
      ∨ (∃ cfg, app_config = some cfg ∧ cfg.project_id.getD "" = "")
      ∨ (∃ cfg, app_config = some cfg ∧ platform ∉ cfg.platforms.getD ["android"])) :
    exceptIsOk (BuildService.build app_config getProject platform body).1 = false ∧
    (BuildService.build app_config getProject platform body).2 = [] := by
  rcases h with h | ⟨cfg, rfl, hpid⟩ | ⟨cfg, rfl, hplat⟩
  · subst h
    exact ⟨rfl, rfl⟩
  · simp [BuildService.build, hpid, exceptIsOk]
  · by_cases hpid : cfg.project_id.getD "" = ""
    · simp [BuildService.build, hpid, exceptIsOk]
    · cases hget : getProject (cfg.project_id.getD "") with
      | none => simp [BuildService.build, hpid, hget, exceptIsOk]
      | some root => simp [BuildService.build, hpid, hget, hplat, exceptIsOk]

/-- C4 witness: a build request for ios against an app supporting only
android fails with no spawn event, although the continuation would have
spawned the toolchain. -/
theorem build_precondition_no_spawn_witness :
    exceptIsOk (BuildService.build (some ⟨some "p1", some ["android"]⟩)
        (fun _ => some "/projects/p1") "ios"
        (fun _ => (Except.ok (), [BuildEvent.spawn ["flutter", "clean"]]))).1 = false ∧
    (BuildService.build (some ⟨some "p1", some ["android"]⟩)
        (fun _ => some "/projects/p1") "ios"
        (fun _ => (Except.ok (), [BuildEvent.spawn ["flutter", "clean"]]))).2 = [] :=
  build_precondition_no_spawn _ _ _ _ (Or.inr (Or.inr ⟨_, rfl, by decide⟩))

/-- C3: the custom arguments harvested by the build pipeline are exactly the
concatenation, in step-list order, of the parsed tokens of every custom_args
step taken from its original configuration; the executor result list does
not influence the outcome, and the run pipeline harvests identically. -/
theorem extract_custom_args_concat (steps : List StepCfg)
    (results results' : List (String × StepResult)) :
    BuildService.extract_custom_args steps results =
      ((steps.filter (fun s => s.type = some "custom_args")).map
        (fun s => CustomArgsStep.extract_arguments_from_config s.arguments)).flatten ∧
    BuildService.extract_custom_args steps results =
      BuildService.extract_custom_args steps results' ∧
    FlutterRunService.extract_custom_args steps results =
      BuildService.extract_custom_args steps results := by
  refine ⟨?_, rfl, rfl⟩
  show extractCustomArgsLoop steps = _
  induction steps with
  | nil => rfl
  | cons s rest ih =>
      by_cases h : s.type = some "custom_args" <;>
        simp [extractCustomArgsLoop, h, ih]

/-- Characterisation of the execute_steps loop with stop_on_error disabled:
every step contributes exactly its own result entry and the success flag is
the conjunction of the per-step successes. -/
lemma executeStepsLoop_no_stop {Ctx : Type} (reg : Registry Ctx) (ctx : Ctx) :
    ∀ (steps : List StepCfg) (i : Nat),
    (WorkflowExecutor.executeStepsLoop reg ctx false steps i).2.length = steps.length ∧
    (WorkflowExecutor.executeStepsLoop reg ctx false steps i).1 =
      steps.all (WorkflowExecutor.stepSuccess reg ctx) ∧
    ∀ j, j < steps.length →
      (WorkflowExecutor.executeStepsLoop reg ctx false steps i).2.getD j ("", default) =
        (WorkflowExecutor.stepIdOf (steps.getD j default) (i + j),
         WorkflowExecutor.runStep reg ctx (steps.getD j default)) := by
  intro steps
  induction steps with
  | nil => intro i; refine ⟨rfl, rfl, ?_⟩; intro j hj; simp at hj
  | cons c rest ih =>
      intro i
      have hstep :
          WorkflowExecutor.executeStepsLoop reg ctx false (c :: rest) i =
            ((WorkflowExecutor.executeStepsLoop reg ctx false rest (i + 1)).1 &&
               (WorkflowExecutor.runStep reg ctx c).success,
             (WorkflowExecutor.stepIdOf c i, WorkflowExecutor.runStep reg ctx c) ::
               (WorkflowExecutor.executeStepsLoop reg ctx false rest (i + 1)).2) := by
        simp [WorkflowExecutor.executeStepsLoop]
      obtain ⟨ihlen, ihall, ihget⟩ := ih (i + 1)
      refine ⟨?_, ?_, ?_⟩
      · rw [hstep]; simp [ihlen]
      · rw [hstep]
        simp only [List.all_cons, WorkflowExecutor.stepSuccess, ihall]
        exact Bool.and_comm _ _
      · intro j hj
        rw [hstep]
        cases j with
        | zero => simp
        | succ j' =>
            have hj' : j' < rest.length := by simpa using hj
            have := ihget j' hj'
            simp only [List.getD_cons_succ]
            rw [this]
            have harith : i + 1 + j' = i + (j' + 1) := by omega
            rw [harith]

/-- C5: with stopOnError disabled, execute_steps produces exactly one result
entry per step of the list, positionally matching the steps, and the overall
success flag is the logical AND of the individual step successes. -/
theorem execute_steps_no_stop_spec {Ctx : Type} (reg : Registry Ctx) (ctx : Ctx)
    (steps : List StepCfg) :
    (WorkflowExecutor.execute_steps reg ctx steps false).2.length = steps.length ∧
    (WorkflowExecutor.execute_steps reg ctx steps false).1 =
      steps.all (WorkflowExecutor.stepSuccess reg ctx) ∧
    ∀ j, j < steps.length →
      (WorkflowExecutor.execute_steps reg ctx steps false).2.getD j ("", default) =
        (WorkflowExecutor.stepIdOf (steps.getD j default) j,
         WorkflowExecutor.runStep reg ctx (steps.getD j default)) := by
  by_cases hnil : steps = []
  · subst hnil
    refine ⟨rfl, rfl, ?_⟩
    intro j hj
    simp at hj
  · have hrw : WorkflowExecutor.execute_steps reg ctx steps false =
        WorkflowExecutor.executeStepsLoop reg ctx false steps 0 := by
      simp [WorkflowExecutor.execute_steps, hnil]
    obtain ⟨h1, h2, h3⟩ := executeStepsLoop_no_stop reg ctx steps 0
    refine ⟨by rw [hrw]; exact h1, by rw [hrw]; exact h2, ?_⟩
    intro j hj
    rw [hrw]
    simpa using h3 j hj

/-- C5 witness: on the concrete three-step list with a failing middle step and
stopOnError disabled, all three steps report, the flag is the conjunction of
the step successes, and the third entry belongs to the third step. -/
theorem execute_steps_no_stop_spec_witness :
    (WorkflowExecutor.execute_steps witnessRegistry () witnessSteps false).2.length =
      witnessSteps.length ∧
    (WorkflowExecutor.execute_steps witnessRegistry () witnessSteps false).1 =
      witnessSteps.all (WorkflowExecutor.stepSuccess witnessRegistry ()) ∧
    (WorkflowExecutor.execute_steps witnessRegistry () witnessSteps false).2.getD 2
        ("", default) =
      (WorkflowExecutor.stepIdOf (witnessSteps.getD 2 default) 2,
       WorkflowExecutor.runStep witnessRegistry () (witnessSteps.getD 2 default)) := by
  obtain ⟨h1, h2, h3⟩ := execute_steps_no_stop_spec witnessRegistry () witnessSteps
  exact ⟨h1, h2, h3 2 (by decide)⟩

/-- Characterisation of the execute step loop with stop_on_error enabled when
the step at position k is the first unsuccessful one: the failed flag is set,
exactly k+1 result entries are produced in step order, and a running event is
only ever emitted for the first k+1 positions. -/
lemma executeLoop_first_failure {Ctx : Type} (reg : Registry Ctx) (ctx : Ctx) :
    ∀ (steps : List StepCfg) (k i : Nat), k < steps.length →
    (∀ j ∈ List.range k,
      WorkflowExecutor.stepSuccess reg ctx (steps.getD j default) = true) →
    WorkflowExecutor.stepSuccess reg ctx (steps.getD k default) = false →
    (WorkflowExecutor.executeLoop reg ctx true steps i).1 = true ∧
    (WorkflowExecutor.executeLoop reg ctx true steps i).2.1.length = k + 1 ∧
    (∀ j, j ≤ k →
      ((WorkflowExecutor.executeLoop reg ctx true steps i).2.1.getD j ("", default)).1 =
        WorkflowExecutor.stepIdOf (steps.getD j default) (i + j)) ∧
    (∀ j sid,
      WorkflowExecutor.StepEvent.running j sid ∈ (WorkflowExecutor.executeLoop reg ctx true steps i).2.2 →
      ∃ m, m ≤ k ∧ j = i + m) := by
  intro steps
  induction steps with
  | nil => intro k i hk _ _; simp at hk
  | cons c rest ih =>
      intro k i hk hpre hfail
      cases k with
      | zero =>
          have hc : (WorkflowExecutor.runStep reg ctx c).success = false := by
            simpa [WorkflowExecutor.stepSuccess] using hfail
          have hstep : WorkflowExecutor.executeLoop reg ctx true (c :: rest) i =
              (true,
               [(WorkflowExecutor.stepIdOf c i, WorkflowExecutor.runStep reg ctx c)],
               [WorkflowExecutor.StepEvent.running i (WorkflowExecutor.stepIdOf c i),
                WorkflowExecutor.StepEvent.finished i (WorkflowExecutor.stepIdOf c i) "error"]) := by
            simp [WorkflowExecutor.executeLoop, hc]
          rw [hstep]
          refine ⟨rfl, rfl, ?_, ?_⟩
          · intro j hj
            have hj0 : j = 0 := Nat.le_zero.mp hj
            subst hj0
            simp
          · intro j sid hmem
            simp only [List.mem_cons, List.not_mem_nil, or_false] at hmem
            rcases hmem with h | h
            · simp only [WorkflowExecutor.StepEvent.running.injEq] at h
              exact ⟨0, Nat.le_refl 0, by omega⟩
            · simp at h
      | succ k' =>
          have hc : (WorkflowExecutor.runStep reg ctx c).success = true := by
            have h0 := hpre 0 (by simp)
            simpa [WorkflowExecutor.stepSuccess] using h0
          have hstep : WorkflowExecutor.executeLoop reg ctx true (c :: rest) i =
              ((WorkflowExecutor.executeLoop reg ctx true rest (i + 1)).1,
               (WorkflowExecutor.stepIdOf c i, WorkflowExecutor.runStep reg ctx c) ::
                 (WorkflowExecutor.executeLoop reg ctx true rest (i + 1)).2.1,
               [WorkflowExecutor.StepEvent.running i (WorkflowExecutor.stepIdOf c i),
                WorkflowExecutor.StepEvent.finished i (WorkflowExecutor.stepIdOf c i) "success"] ++
                 (WorkflowExecutor.executeLoop reg ctx true rest (i + 1)).2.2) := by
            simp [WorkflowExecutor.executeLoop, hc]
          have hk' : k' < rest.length := by simpa using hk
          have hpre' : ∀ j ∈ List.range k',
              WorkflowExecutor.stepSuccess reg ctx (rest.getD j default) = true := by
            intro j hj
            have hj1 : j + 1 ∈ List.range (k' + 1) := by
              simpa [List.mem_range] using Nat.succ_lt_succ (List.mem_range.mp hj)
            simpa using hpre (j + 1) hj1
          have hfail' :
              WorkflowExecutor.stepSuccess reg ctx (rest.getD k' default) = false := by
            simpa using hfail
          obtain ⟨ih1, ih2, ih3, ih4⟩ := ih k' (i + 1) hk' hpre' hfail'
          rw [hstep]
          refine ⟨ih1, by simp [ih2], ?_, ?_⟩
          · intro j hj
            cases j with
            | zero => simp
            | succ j' =>
                have hj' : j' ≤ k' := by omega
                have hg := ih3 j' hj'
                simp only [List.getD_cons_succ]
                rw [hg]
                have harith : i + 1 + j' = i + (j' + 1) := by omega
                rw [harith]
          · intro j sid hmem
            simp only [List.cons_append, List.nil_append, List.mem_cons] at hmem
            rcases hmem with h | h | h
            · simp only [WorkflowExecutor.StepEvent.running.injEq] at h
              exact ⟨0, Nat.zero_le _, by omega⟩
            · simp at h
            · obtain ⟨m, hm, hjm⟩ := ih4 j sid h
              exact ⟨m + 1, Nat.succ_le_succ hm, by omega⟩

/-- C1: under stopOnError, with step k the first whose outcome is
unsuccessful (unknown type, failed validation, raised fault or unsuccessful
StepResult all make stepSuccess false), execute produces exactly one result
entry for each of the steps 0..k in order, stops there, never emits a
running status for any later step, and marks every later step skipped. -/
theorem execute_stop_on_error_first_failure {Ctx : Type} (reg : Registry Ctx)
    (ctx : Ctx) (steps : List StepCfg) (k : Nat) (hk : k < steps.length)
    (hpre : ∀ j ∈ List.range k,
      WorkflowExecutor.stepSuccess reg ctx (steps.getD j default) = true)
    (hfail : WorkflowExecutor.stepSuccess reg ctx (steps.getD k default) = false) :
    (WorkflowExecutor.execute reg ctx steps true).2.1.length = k + 1 ∧
    (∀ j, j ≤ k →
      ((WorkflowExecutor.execute reg ctx steps true).2.1.getD j ("", default)).1 =
        WorkflowExecutor.stepIdOf (steps.getD j default) j) ∧
    (∀ j sid,
      WorkflowExecutor.StepEvent.running j sid ∈ (WorkflowExecutor.execute reg ctx steps true).2.2 →
      j ≤ k) ∧
    (∀ j, k < j → j < steps.length →
      WorkflowExecutor.StepEvent.skipped j (WorkflowExecutor.stepIdOf (steps.getD j default) j) ∈
        (WorkflowExecutor.execute reg ctx steps true).2.2) := by
  obtain ⟨h1, h2, h3, h4⟩ := executeLoop_first_failure reg ctx steps k 0 hk hpre hfail
  have hex : WorkflowExecutor.execute reg ctx steps true =
      ("error",
       (WorkflowExecutor.executeLoop reg ctx true steps 0).2.1,
       (WorkflowExecutor.executeLoop reg ctx true steps 0).2.2 ++
         (List.range' (WorkflowExecutor.executeLoop reg ctx true steps 0).2.1.length
             (steps.length -
               (WorkflowExecutor.executeLoop reg ctx true steps 0).2.1.length)).map
           (fun j =>
             WorkflowExecutor.StepEvent.skipped j (WorkflowExecutor.stepIdOf (steps.getD j default) j))) := by
    simp [WorkflowExecutor.execute, h1]
  rw [hex]
  refine ⟨h2, ?_, ?_, ?_⟩
  · intro j hj
    simpa using h3 j hj
  · intro j sid hmem
    rcases List.mem_append.mp hmem with h | h
    · obtain ⟨m, hm, hjm⟩ := h4 j sid h
      omega
    · exfalso
      obtain ⟨x, _, heq⟩ := List.mem_map.mp h
      exact WorkflowExecutor.StepEvent.noConfusion heq
  · intro j hjk hjn
    refine List.mem_append.mpr (Or.inr (List.mem_map.mpr ⟨j, ?_, rfl⟩))
    rw [h2]
    refine List.mem_range'_1.mpr ⟨by omega, by omega⟩

/-- C1 witness: on a concrete three-step list whose second step fails,
execute stops after two result entries, never marks the third step running,
and marks it skipped. -/
theorem execute_stop_on_error_first_failure_witness :
    (WorkflowExecutor.execute witnessRegistry () witnessSteps true).2.1.length = 2 ∧
    (∀ j sid,
      WorkflowExecutor.StepEvent.running j sid ∈
        (WorkflowExecutor.execute witnessRegistry () witnessSteps true).2.2 → j ≤ 1) ∧
    WorkflowExecutor.StepEvent.skipped 2
        (WorkflowExecutor.stepIdOf (witnessSteps.getD 2 default) 2) ∈
      (WorkflowExecutor.execute witnessRegistry () witnessSteps true).2.2 := by
  obtain ⟨h1, _, h3, h4⟩ :=
    execute_stop_on_error_first_failure witnessRegistry () witnessSteps 1
      (by decide) (by decide) (by decide)
  exact ⟨h1, h3, h4 2 (by decide) (by decide)⟩

/-- Mapping a function that fixes every member of a list is the identity. -/
lemma list_map_fix (f : Char → Char) :
    ∀ (l : List Char), (∀ c ∈ l, f c = c) → l.map f = l := by
  intro l
  induction l with
  | nil => intro _; rfl
  | cons a l' ih =>
      intro h
      simp only [List.map_cons, h a (List.mem_cons_self a l'),
        ih (fun c hc => h c (List.mem_cons_of_mem a hc))]

/-- Newline normalisation fixes a string with no newline and no carriage
return. -/
lemma normalizeArgs_fix (l : List Char) (h : ∀ c ∈ l, c ≠ nlChar ∧ c ≠ crChar) :
    CustomArgsStep.normalizeArgs (String.mk l) = String.mk l := by
  unfold CustomArgsStep.normalizeArgs pyReplaceChar
  have h1 : l.map (fun c => if c = nlChar then ' ' else c) = l :=
    list_map_fix _ l (fun c hc => if_neg (h c hc).1)
  have h2 : l.map (fun c => if c = crChar then ' ' else c) = l :=
    list_map_fix _ l (fun c hc => if_neg (h c hc).2)
  show String.mk ((l.map _).map _) = String.mk l
  rw [h1, h2]

/-- A string whose characters all fail the whitespace predicate at some point
strips to a nonempty remainder; stated in the converse direction: a string
stripping to empty has only whitespace characters. -/
lemma pyStrip_empty_all_ws (s : String) (h : pyStrip s = "") :
    ∀ c ∈ s.data, isPyWs c = true := by
  unfold pyStrip at h
  have hdata : (((s.data.dropWhile isPyWs).reverse.dropWhile isPyWs).reverse) = [] := by
    have := congrArg String.data h
    simpa using this
  have hrev : ((s.data.dropWhile isPyWs).reverse.dropWhile isPyWs) = [] := by
    simpa using congrArg List.reverse hdata
  have hall : ∀ c ∈ (s.data.dropWhile isPyWs).reverse, isPyWs c := by
    exact List.dropWhile_eq_nil_iff.mp hrev
  have hdrop : ∀ c ∈ s.data.dropWhile isPyWs, isPyWs c := by
    intro c hc
    exact hall c (List.mem_reverse.mpr hc)
  intro c hc
  rw [← List.takeWhile_append_dropWhile (p := isPyWs) (l := s.data)] at hc
  rcases List.mem_append.mp hc with h1 | h1
  · exact List.mem_takeWhile_imp h1
  · exact hdrop c h1

/-- Python whitespace characters are not quotes and not the escape
character. -/
lemma pyWs_not_special (c : Char) (h : isPyWs c = true) :
    c ≠ squote ∧ c ≠ dquote ∧ c ≠ bslash := by
  simp only [isPyWs, isShlexWs, Bool.or_eq_true, beq_iff_eq] at h
  rcases h with ((((h | h) | h) | h) | h) | h <;> subst h <;>
    exact ⟨by decide, by decide, by decide⟩

/-- The lexer consumes a run of characters inside a double quote verbatim
when none of them closes the quote or escapes. -/
lemma shlexRun_quote_plain :
    ∀ (l : List Char) (rest tok : List Char) (q : Bool),
    (∀ c ∈ l, c ≠ dquote ∧ c ≠ bslash) →
    shlexRun (l ++ rest) (SState.inQuote dquote) tok q =
      shlexRun rest (SState.inQuote dquote) (l.reverse ++ tok) q := by
  intro l
  induction l with
  | nil => intro rest tok q _; simp
  | cons c l' ih =>
      intro rest tok q h
      have hc := h c (List.mem_cons_self c l')
      have hstep : shlexRun ((c :: l') ++ rest) (SState.inQuote dquote) tok q =
          shlexRun (l' ++ rest) (SState.inQuote dquote) (c :: tok) q := by
        simp [shlexRun, hc.1, hc.2]
      rw [hstep, ih rest (c :: tok) q (fun d hd => h d (List.mem_cons_of_mem c hd))]
      simp

/-- On input with no quote and no escape character the lexer never raises,
from either of the two non-quote states. -/
lemma shlexRun_ok_no_special :
    ∀ (l : List Char) (tok : List Char) (q : Bool) (st : SState),
    (∀ c ∈ l, c ≠ squote ∧ c ≠ dquote ∧ c ≠ bslash) →
    (st = SState.ws ∨ st = SState.word) →
    exceptIsOk (shlexRun l st tok q) = true := by
  intro l
  induction l with
  | nil =>
      intro tok q st _ hst
      rcases hst with rfl | rfl <;>
        · simp only [shlexRun]
          split <;> rfl
  | cons c l' ih =>
      intro tok q st h hst
      have hc := h c (List.mem_cons_self c l')
      have h' : ∀ d ∈ l', d ≠ squote ∧ d ≠ dquote ∧ d ≠ bslash :=
        fun d hd => h d (List.mem_cons_of_mem c hd)
      have hemit : ∀ t : List Char,
          exceptIsOk (match shlexRun l' SState.ws [] false with
            | Except.ok ts => Except.ok (String.mk t.reverse :: ts)
            | Except.error e => Except.error e) = true := by
        intro t
        have hrec := ih [] false SState.ws h' (Or.inl rfl)
        cases hcase : shlexRun l' SState.ws [] false with
        | ok ts => simp [exceptIsOk]
        | error e => rw [hcase] at hrec; simp [exceptIsOk] at hrec
      rcases hst with rfl | rfl
      · simp only [shlexRun]
        split
        · split
          · exact hemit tok
          · exact ih tok q SState.ws h' (Or.inl rfl)
        · split
          · rename_i hcb
            exact absurd hcb hc.2.2
          · split
            · rename_i hcq
              rcases hcq with h1 | h1
              · exact absurd h1 hc.1
              · exact absurd h1 hc.2.1
            · exact ih (c :: tok) q SState.word h' (Or.inr rfl)
      · simp only [shlexRun]
        split
        · split
          · exact hemit tok
          · exact ih tok q SState.ws h' (Or.inl rfl)
        · split
          · rename_i hcq
            rcases hcq with h1 | h1
            · exact absurd h1 hc.1
            · exact absurd h1 hc.2.1
          · split
            · rename_i hcb
              exact absurd hcb hc.2.2
            · exact ih (c :: tok) q SState.word h' (Or.inr rfl)

/-- Unpacking of the plain-character predicate. -/
lemma plainChar_spec (c : Char) (h : plainChar c = true) :
    isShlexWs c = false ∧ c ≠ squote ∧ c ≠ dquote ∧ c ≠ bslash := by
  simp only [plainChar, Bool.and_eq_true, Bool.not_eq_true', beq_eq_false_iff_ne,
    ne_eq] at h
  exact ⟨h.1.1.1, h.1.1.2, h.1.2, h.2⟩

/-- A character that is not shlex whitespace is none of the four whitespace
characters. -/
lemma not_shlexWs_ne (c : Char) (h : isShlexWs c = false) :
    c ≠ ' ' ∧ c ≠ tabChar ∧ c ≠ crChar ∧ c ≠ nlChar := by
  refine ⟨?_, ?_, ?_, ?_⟩ <;> rintro rfl <;> revert h <;> decide

/-- C7: parse_arguments splits the mixed space and newline example into its
three flags, maps every whitespace-only input (empty included) to the empty
list, and keeps the internal space of any double-quoted token, made of
arbitrary plain characters, inside one single output element. -/
theorem parse_arguments_spec :
    CustomArgsStep.parse_arguments "--flag1 --flag2=val\n--flag3" =
      ["--flag1", "--flag2=val", "--flag3"] ∧
    (∀ s : String, s.data.all isPyWs = true → CustomArgsStep.parse_arguments s = []) ∧
    (∀ u v : List Char, u.all plainChar = true → v.all plainChar = true →
      CustomArgsStep.parse_arguments (String.mk (dquote :: (u ++ ' ' :: v) ++ [dquote])) =
        [String.mk (u ++ ' ' :: v)]) := by
  refine ⟨by decide, ?_, ?_⟩
  · intro s hs
    have hall : ∀ c ∈ s.data, isPyWs c = true := List.all_eq_true.mp hs
    have hstrip : pyStrip s = "" := by
      unfold pyStrip
      have h1 : s.data.dropWhile isPyWs = [] :=
        List.dropWhile_eq_nil_iff.mpr (fun x hx => hall x hx)
      rw [h1]
      rfl
    simp [CustomArgsStep.parse_arguments, hstrip]
  · intro u v hu hv
    have hu' : ∀ c ∈ u, plainChar c = true := List.all_eq_true.mp hu
    have hv' : ∀ c ∈ v, plainChar c = true := List.all_eq_true.mp hv
    have hmid : ∀ c ∈ u ++ ' ' :: v, c ≠ dquote ∧ c ≠ bslash := by
      intro c hc
      rcases List.mem_append.mp hc with h1 | h1
      · have hp := plainChar_spec c (hu' c h1)
        exact ⟨hp.2.2.1, hp.2.2.2⟩
      · rcases List.mem_cons.mp h1 with rfl | h2
        · exact ⟨by decide, by decide⟩
        · have hp := plainChar_spec c (hv' c h2)
          exact ⟨hp.2.2.1, hp.2.2.2⟩
    have hne : String.mk (dquote :: (u ++ ' ' :: v) ++ [dquote]) ≠ "" := by
      intro hcontr
      have hdata := congrArg String.data hcontr
      simp at hdata
    have hstrip : pyStrip (String.mk (dquote :: (u ++ ' ' :: v) ++ [dquote])) ≠ "" := by
      intro hcontr
      have hall := pyStrip_empty_all_ws _ hcontr
      have hdq : isPyWs dquote = true := hall dquote (by simp)
      exact absurd hdq (by decide)
    have hnn : ∀ c ∈ dquote :: (u ++ ' ' :: v) ++ [dquote], c ≠ nlChar ∧ c ≠ crChar := by
      intro c hc
      rcases List.mem_append.mp hc with h1 | h1
      · rcases List.mem_cons.mp h1 with rfl | h2
        · exact ⟨by decide, by decide⟩
        · rcases List.mem_append.mp h2 with h3 | h3
          · have hp := plainChar_spec c (hu' c h3)
            have hws := not_shlexWs_ne c hp.1
            exact ⟨hws.2.2.2, hws.2.2.1⟩
          · rcases List.mem_cons.mp h3 with rfl | h4
            · exact ⟨by decide, by decide⟩
            · have hp := plainChar_spec c (hv' c h4)
              have hws := not_shlexWs_ne c hp.1
              exact ⟨hws.2.2.2, hws.2.2.1⟩
      · rcases List.mem_cons.mp h1 with rfl | h2
        · exact ⟨by decide, by decide⟩
        · simp at h2
    have hnorm := normalizeArgs_fix _ hnn
    have hshlex : shlexSplit (String.mk (dquote :: (u ++ ' ' :: v) ++ [dquote])) =
        Except.ok [String.mk (u ++ ' ' :: v)] := by
      show shlexRun ((dquote :: (u ++ ' ' :: v)) ++ [dquote]) SState.ws [] false = _
      have hq1 : isShlexWs dquote = false := by decide
      have hq2 : ¬(dquote = bslash) := by decide
      have hq3 : dquote = squote ∨ dquote = dquote := Or.inr rfl
      have hstep1 : shlexRun ((dquote :: (u ++ ' ' :: v)) ++ [dquote]) SState.ws [] false
          = shlexRun ((u ++ ' ' :: v) ++ [dquote]) (SState.inQuote dquote) [] true := by
        simp [shlexRun, hq1, hq2, hq3]
      rw [hstep1, shlexRun_quote_plain (u ++ ' ' :: v) [dquote] [] true hmid]
      simp [shlexRun]
    unfold CustomArgsStep.parse_arguments
    rw [if_neg (not_or.mpr ⟨hne, hstrip⟩)]
    show (match shlexSplit
        (CustomArgsStep.normalizeArgs (String.mk (dquote :: (u ++ ' ' :: v) ++ [dquote]))) with
      | Except.ok args => args
      | Except.error _ =>
          CustomArgsStep.fallbackSplit
            (CustomArgsStep.normalizeArgs
              (String.mk (dquote :: (u ++ ' ' :: v) ++ [dquote])))) = _
    rw [hnorm, hshlex]

/-- C7 witness: a whitespace-only input parses to the empty list, and the
quoted two-letter words keep their separating space inside one element. -/
theorem parse_arguments_spec_witness :
    CustomArgsStep.parse_arguments (String.mk [tabChar, ' ']) = [] ∧
    CustomArgsStep.parse_arguments
        (String.mk (dquote :: (['a'] ++ ' ' :: ['b']) ++ [dquote])) =
      [String.mk (['a'] ++ ' ' :: ['b'])] :=
  ⟨parse_arguments_spec.2.1 (String.mk [tabChar, ' ']) (by decide),
   parse_arguments_spec.2.2 ['a'] ['b'] (by decide) (by decide)⟩

/-- C10: parse_arguments is a total function, and whenever shlex splitting of
the newline-normalised input raises, it returns the plain whitespace
splitting of that normalised input with empty fragments removed. -/
theorem parse_arguments_fallback (s : String)
    (h : exceptIsOk (shlexSplit (CustomArgsStep.normalizeArgs s)) = false) :
    CustomArgsStep.parse_arguments s =
      CustomArgsStep.fallbackSplit (CustomArgsStep.normalizeArgs s) := by
  by_cases hcond : s = "" ∨ pyStrip s = ""
  · exfalso
    have hok : exceptIsOk (shlexSplit (CustomArgsStep.normalizeArgs s)) = true := by
      rcases hcond with rfl | hstrip
      · decide
      · have hall := pyStrip_empty_all_ws s hstrip
        refine shlexRun_ok_no_special _ [] false SState.ws ?_ (Or.inl rfl)
        intro c hc
        have hmem : c ∈ (s.data.map (fun d => if d = nlChar then ' ' else d)).map
            (fun d => if d = crChar then ' ' else d) := hc
        obtain ⟨d1, hd1, rfl⟩ := List.mem_map.mp hmem
        obtain ⟨d0, hd0, rfl⟩ := List.mem_map.mp hd1
        have hw := hall d0 hd0
        by_cases h0 : d0 = nlChar
        · subst h0
          exact ⟨by decide, by decide, by decide⟩
        · rw [if_neg h0]
          by_cases h1 : d0 = crChar
          · rw [if_pos h1]
            exact ⟨by decide, by decide, by decide⟩
          · rw [if_neg h1]
            exact pyWs_not_special d0 hw
    rw [h] at hok
    exact Bool.false_ne_true hok
  · unfold CustomArgsStep.parse_arguments
    rw [if_neg hcond]
    show (match shlexSplit (CustomArgsStep.normalizeArgs s) with
      | Except.ok args => args
      | Except.error _ =>
          CustomArgsStep.fallbackSplit (CustomArgsStep.normalizeArgs s)) = _
    cases hsplit : shlexSplit (CustomArgsStep.normalizeArgs s) with
    | ok args => rw [hsplit] at h; simp [exceptIsOk] at h
    | error e => rfl

/-- C10 witness: an input with an unbalanced double quote makes shlex raise
and parse_arguments answers with the whitespace-split fallback. -/
theorem parse_arguments_fallback_witness :
    CustomArgsStep.parse_arguments (String.mk [dquote, 'a', 'b']) =
      CustomArgsStep.fallbackSplit
        (CustomArgsStep.normalizeArgs (String.mk [dquote, 'a', 'b'])) :=
  parse_arguments_fallback (String.mk [dquote, 'a', 'b']) (by decide)

end AppStream
